import Mathlib

/-!
Verification development for the `file-manager` crate: a shallow embedding of
the in-memory file manager (`src/memory.rs`), the durability (fsync) subsystem
(`src/fsync.rs`), and the path model of `src/lib.rs`, together with theorems
settling the specification claims about them.
-/

set_option linter.unusedVariables false

namespace FileManagerModel

/-! ## Paths (`PathId`, `src/lib.rs`)

A path is modelled by whether it is absolute and by its list of components,
so that `/` is `⟨true, []⟩`, `/a/b` is `⟨true, ["a", "b"]⟩` and the relative
path `a` is `⟨false, ["a"]⟩`. `parent` mirrors `std::path::Path::parent`:
it strips the last component, and returns `none` on `/` and on the empty
relative path. -/

structure MPath where
  absolute : Bool
  components : List String
deriving DecidableEq

/-- The root path `/`, pre-populated in the in-memory backing. -/
def MPath.root : MPath := ⟨true, []⟩

/-- `PathId::parent` (via `Path::parent`). -/
def MPath.parent (p : MPath) : Option MPath :=
  match p.components with
  | [] => none
  | _ :: _ => some ⟨p.absolute, p.components.dropLast⟩


/-! ## Error kinds

`io::ErrorKind` values actually produced by the code, plus `panicked`, which
marks the `unreachable!` / `.expect(..)` panic paths of the source. -/

inductive ErrK where
  | notFound
  | alreadyExists
  | unsupported
  | panicked
deriving DecidableEq

instance {ε α : Type} [DecidableEq ε] [DecidableEq α] : DecidableEq (Except ε α) :=
  fun x y =>
    match x, y with
    | .ok a, .ok b =>
      if h : a = b then isTrue (by rw [h]) else isFalse (by intro he; cases he; exact h rfl)
    | .ok _, .error _ => isFalse (by intro he; cases he)
    | .error _, .ok _ => isFalse (by intro he; cases he)
    | .error e, .error f =>
      if h : e = f then isTrue (by rw [h]) else isFalse (by intro he; cases he; exact h rfl)

/-! ## Association-list maps and sets

`HashMap` and `HashSet` from the source are modelled as association lists and
lists; insertion replaces an existing binding (like `HashMap::insert`), and
set insertion is idempotent (like `HashSet::insert`). -/

variable {α : Type} {β : Type}

/-- `HashMap::get`. -/
def lookupA [DecidableEq α] : List (α × β) → α → Option β
  | [], _ => none
  | (k, v) :: rest, key => if k = key then some v else lookupA rest key

/-- `HashMap::insert` (replace an existing binding or append a fresh one). -/
def insertA [DecidableEq α] : List (α × β) → α → β → List (α × β)
  | [], key, v => [(key, v)]
  | (k, w) :: rest, key, v =>
    if k = key then (key, v) :: rest else (k, w) :: insertA rest key v

/-- `HashMap::remove`: the removed value together with the remaining map. -/
def removeEntry [DecidableEq α] : List (α × β) → α → Option (β × List (α × β))
  | [], _ => none
  | (k, v) :: rest, key =>
    if k = key then some (v, rest)
    else (removeEntry rest key).map fun r => (r.1, (k, v) :: r.2)

/-- `HashSet::insert`. -/
def setInsert [DecidableEq α] (l : List α) (x : α) : List α :=
  if x ∈ l then l else l ++ [x]

/-- `HashSet::remove`. -/
def setRemove [DecidableEq α] (l : List α) (x : α) : List α :=
  l.erase x


/-! ## Shared-cell store

`Arc<Mutex<usize>>` cursor cells and `Arc<RwLock<Vec<u8>>>` byte buffers are
modelled as indices into a store: `positions` holds one cursor value per
allocated position cell, `buffers` one byte list per allocated buffer cell.
Two handles alias a cell exactly when they hold the same index, which is how
`Arc` cloning is reflected. Bytes are modelled as `Nat` values. -/

structure Store where
  positions : List Nat
  buffers : List (List Nat)
deriving DecidableEq

/-- Dereference a position cell (`position.lock()`). -/
def getPos (st : Store) (r : Nat) : Nat := st.positions.getD r 0

/-- Write a position cell (`*position = ..`). -/
def setPos (st : Store) (r v : Nat) : Store :=
  { st with positions := st.positions.set r v }

/-- Dereference a buffer cell (`buffer.read()` / `buffer.write()`). -/
def getBuf (st : Store) (r : Nat) : List Nat := st.buffers.getD r []

/-- Write a buffer cell. -/
def setBuf (st : Store) (r : Nat) (v : List Nat) : Store :=
  { st with buffers := st.buffers.set r v }

/-! ## `MemoryFile` (`src/memory.rs`, `FileBacking` and `MemoryFile`) -/

/-- `enum FileBacking`: a directory marker, or a byte buffer with a cursor;
`posRef` and `bufRef` are store indices standing for the two `Arc`s. -/
inductive FileBacking where
  | directory
  | buffer (posRef : Nat) (bufRef : Nat)
deriving DecidableEq

def FileBacking.isDirectory : FileBacking → Bool
  | .directory => true
  | .buffer _ _ => false

structure MemoryFile where
  path : MPath
  backing : FileBacking
deriving DecidableEq

/-- `MemoryFile::new`: a fresh empty buffer and a fresh zero cursor
(`Arc::default()` twice). -/
def MemoryFile.new (path : MPath) (st : Store) : MemoryFile × Store :=
  (⟨path, .buffer st.positions.length st.buffers.length⟩,
   ⟨st.positions ++ [0], st.buffers ++ [[]]⟩)

/-- `MemoryFile::new_directory`. -/
def MemoryFile.new_directory (path : MPath) : MemoryFile :=
  ⟨path, .directory⟩

/-- `MemoryFile::detach`: share the buffer, allocate a fresh zero cursor. -/
def MemoryFile.detach (f : MemoryFile) (st : Store) : MemoryFile × Store :=
  match f.backing with
  | .directory => (⟨f.path, .directory⟩, st)
  | .buffer _ br =>
    (⟨f.path, .buffer st.positions.length br⟩, { st with positions := st.positions ++ [0] })

/-- `<MemoryFile as File>::try_clone`, i.e. `Ok(self.clone())`: the derived
`Clone` clones both `Arc`s, so the clone holds the same cell indices. -/
def MemoryFile.try_clone (f : MemoryFile) : MemoryFile := f

/-! ## Durability manager state (`src/fsync.rs`, `ThreadState`) -/

/-- `enum ThreadState`. `Running` carries a worker join handle and a command
sender in the source; neither is needed to settle state-machine claims. -/
inductive ThreadState where
  | uninitialized (maximum_threads : Nat)
  | running
  | shutdown
deriving DecidableEq

/-- `FSyncError` (the non-`Io` constructors). -/
inductive FSyncError where
  | shutdownErr
  | threadJoin
  | internalInconsistency
deriving DecidableEq

/-- `FSyncManager::shutdown`: `std::mem::replace(&mut *data, ThreadState::Shutdown)`
runs on every state, unconditionally. -/
def FSyncManager.shutdownStep : ThreadState → ThreadState :=
  fun _ => ThreadState.shutdown

/-- `FSyncManager::with_running_thread`: spawn the worker on the first use,
fail after shutdown, reuse the running worker otherwise. -/
def FSyncManager.with_running_thread :
    ThreadState → Except FSyncError Unit × ThreadState
  | .uninitialized _ => (.ok (), .running)
  | .running => (.ok (), .running)
  | .shutdown => (.error .shutdownErr, .shutdown)

/-- `FSyncManager::new_batch` succeeds exactly when `with_running_thread`
does (it only clones the cached command sender). -/
def FSyncManager.new_batch (s : ThreadState) : Except FSyncError Unit × ThreadState :=
  FSyncManager.with_running_thread s

/-! ## `OpenOptions` (`src/lib.rs`) -/

structure OpenOptions where
  read : Bool
  write : Bool
  create : Bool
deriving DecidableEq

/-! ## `MemoryFileManager` (`src/memory.rs`) -/

structure MemoryFileManager where
  /-- `directories: HashMap<PathId, HashSet<PathId>>`. -/
  directories : List (MPath × List MPath)
  /-- `files: HashMap<PathId, MemoryFile>`. -/
  files : List (MPath × MemoryFile)
  /-- Backing store for the `Arc` cells inside the file entities. -/
  store : Store
  /-- `fsyncs: FSyncManager<Self>`. -/
  fsyncs : ThreadState
deriving DecidableEq

/-- `MemoryFileManager::default()`: root pre-populated in both maps; the
fsync manager starts uninitialized with `available_parallelism` (passed in
here, `None` standing for unavailable) defaulting to 4. -/
def MemoryFileManager.default (available_parallelism : Option Nat) : MemoryFileManager :=
  { directories := [(MPath.root, [])]
    files := [(MPath.root, MemoryFile.new_directory MPath.root)]
    store := ⟨[], []⟩
    fsyncs := ThreadState.uninitialized (available_parallelism.getD 4) }

/-- `check_path`: absolute paths only. -/
def check_path (path : MPath) : Except ErrK Unit :=
  if path.absolute then .ok () else .error .unsupported

/-- `MemoryFileManager::open` (`FileManager::open`). -/
def MemoryFileManager.openFile (s : MemoryFileManager) (path : MPath)
    (options : OpenOptions) : Except ErrK MemoryFile × MemoryFileManager :=
  match check_path path with
  | .error e => (.error e, s)
  | .ok () =>
    match lookupA s.files path with
    | some file =>
      let (g, st') := file.detach s.store
      (.ok g, { s with store := st' })
    | none =>
      if options.create then
        match path.parent with
        | none => (.error .panicked, s)  -- `unreachable!`: `/` is always in `files`
        | some parent =>
          match lookupA s.directories parent with
          | some parentSet =>
            -- re-check under the exclusive lock (`files.entry(path)`)
            match lookupA s.files path with
            | some file =>
              let (g, st') := file.detach s.store
              (.ok g, { s with store := st' })
            | none =>
              let (nf, st1) := MemoryFile.new path s.store
              let (g, st2) := nf.detach st1
              (.ok g,
               { s with
                 directories := insertA s.directories parent (setInsert parentSet path)
                 files := insertA s.files path nf
                 store := st2 })
          | none => (.error .notFound, s)
      else
        (.error .notFound, s)

/-- `MemoryFileManager::exists`. -/
def MemoryFileManager.existsPath (s : MemoryFileManager) (path : MPath) : Bool :=
  (lookupA s.files path).isSome

/-- `MemoryFileManager::remove_file`. -/
def MemoryFileManager.remove_file (s : MemoryFileManager) (path : MPath) :
    Except ErrK Unit × MemoryFileManager :=
  match check_path path with
  | .error e => (.error e, s)
  | .ok () =>
    match path.parent with
    | some parent =>
      match removeEntry s.files path with
      | some (_, files') =>
        match lookupA s.directories parent with
        | none => (.error .panicked, s)  -- `.expect("file exists without directory")`
        | some parentSet =>
          (.ok (),
           { s with
             files := files'
             directories := insertA s.directories parent (setRemove parentSet path) })
      | none => (.error .notFound, s)
    | none =>
      -- request to remove `/`
      (.error .unsupported, s)

/-- `MemoryFileManager::rename`. -/
def MemoryFileManager.rename (s : MemoryFileManager) (fromPath toPath : MPath) :
    Except ErrK Unit × MemoryFileManager :=
  match check_path fromPath with
  | .error e => (.error e, s)
  | .ok () =>
    match check_path toPath with
    | .error e => (.error e, s)
    | .ok () =>
      match fromPath.parent with
      | none => (.error .unsupported, s)
      | some from_parent =>
        match removeEntry s.files fromPath with
        | some (original, files') =>
          match lookupA s.directories from_parent with
          | none => (.error .panicked, s)  -- `.expect("missing directory")`
          | some directory =>
            (.ok (),
             { s with
               directories :=
                 insertA s.directories from_parent
                   (setInsert (setRemove directory fromPath) toPath)
               files := insertA files' toPath { original with path := toPath } })
        | none => (.error .notFound, s)

/-- `MemoryFileManager::list`. Note: the source never calls `check_path`
here. -/
def MemoryFileManager.list (s : MemoryFileManager) (path : MPath) :
    Except ErrK (List MPath) × MemoryFileManager :=
  match lookupA s.directories path with
  | some contents => (.ok contents, s)
  | none => (.error .notFound, s)

/-- The ancestor-collecting loop of `MemoryFileManager::create_dir_all`
(`src/memory.rs` lines 100–110): walk upward from `path_to_check` pushing
missing paths, stop at the first existing directory, fail with
`AlreadyExists` on an existing non-directory. -/
def collectMissing (files : List (MPath × MemoryFile)) :
    Nat → MPath → List MPath → Except ErrK (List MPath)
  | fuel, path_to_check, acc =>
    match lookupA files path_to_check with
    | some file =>
      match file.backing with
      | .directory => .ok acc
      | .buffer _ _ => .error .alreadyExists
    | none =>
      match path_to_check.parent with
      | none => .error .panicked  -- `unreachable!("/ always is in files")`
      | some next_root =>
        -- `fuel` only bounds the iteration count so that the recursion is
        -- structural; every step moves to the parent, whose component list
        -- is strictly shorter, so a call with
        -- `fuel = path_to_check.components.length` never exhausts it.
        match fuel with
        | 0 => .error .panicked
        | fuel' + 1 => collectMissing files fuel' next_root (acc ++ [path_to_check])

/-- The insertion loop of `MemoryFileManager::create_dir_all`
(`src/memory.rs` lines 115–127): insert each collected path as an empty
directory whose child set holds the next (peeked) element of the list. -/
def insertDirLoop :
    List MPath → List (MPath × List MPath) → List (MPath × MemoryFile) →
      List (MPath × List MPath) × List (MPath × MemoryFile)
  | [], dirs, files => (dirs, files)
  | path_to_create :: rest, dirs, files =>
    let files' := insertA files path_to_create (MemoryFile.new_directory path_to_create)
    let children : List MPath :=
      match rest.head? with
      | some next_file => [next_file]
      | none => []
    insertDirLoop rest (insertA dirs path_to_create children) files'

/-- `MemoryFileManager::create_dir_all`. -/
def MemoryFileManager.create_dir_all (s : MemoryFileManager) (path : MPath) :
    Except ErrK Unit × MemoryFileManager :=
  match check_path path with
  | .error e => (.error e, s)
  | .ok () =>
    match lookupA s.files path with
    | some file =>
      match file.backing with
      | .buffer _ _ => (.error .unsupported, s)  -- "path exists as a file"
      | .directory => (.ok (), s)
    | none =>
      match path.parent with
      | none => (.error .panicked, s)  -- `unreachable!("/ always exists in files")`
      | some first_to_check =>
        match collectMissing s.files first_to_check.components.length first_to_check [] with
        | .error e => (.error e, s)
        | .ok paths_to_create =>
          let (dirs', files') := insertDirLoop paths_to_create s.directories s.files
          (.ok (), { s with directories := dirs', files := files' })

/-- The child-processing loop body of `MemoryFileManager::remove_dir_all`
(`src/memory.rs` lines 150–157): remove each child from the file map,
pushing directory-flavoured children onto the scan stack; a child missing
from the file map hits `unreachable!("file missing")`. -/
def removeDirScanChildren (files : List (MPath × MemoryFile)) (children : List MPath)
    (stack : List MPath) : Except ErrK (List (MPath × MemoryFile) × List MPath) :=
  match children with
  | [] => .ok (files, stack)
  | c :: cs =>
    match removeEntry files c with
    | none => .error .panicked  -- `unreachable!("file missing")`
    | some (file, files') =>
      match file.backing with
      | .directory => removeDirScanChildren files' cs (file.path :: stack)
      | .buffer _ _ => removeDirScanChildren files' cs stack

/-- The scan loop of `MemoryFileManager::remove_dir_all` (`src/memory.rs`
lines 146–158): pop a directory, remove its entry from the directory map
(`NotFound` if missing), and remove its children from the file map. -/
def removeDirLoop :
    Nat → List (MPath × List MPath) → List (MPath × MemoryFile) → List MPath →
      Except ErrK (List (MPath × List MPath) × List (MPath × MemoryFile))
  | _, dirs, files, [] => .ok (dirs, files)
  | fuel, dirs, files, directory :: rest =>
    match removeEntry dirs directory with
    | none => .error .notFound
    | some (directory_files, dirs') =>
      match removeDirScanChildren files directory_files rest with
      | .error e => .error e
      | .ok (files', stack') =>
        -- `fuel` only bounds the iteration count so that the recursion is
        -- structural; every iteration removes one key from the directory
        -- map, so a call with `fuel = dirs.length` never exhausts it.
        match fuel with
        | 0 => .error .panicked
        | fuel' + 1 => removeDirLoop fuel' dirs' files' stack'

/-- `MemoryFileManager::remove_dir_all`. -/
def MemoryFileManager.remove_dir_all (s : MemoryFileManager) (path : MPath) :
    Except ErrK Unit × MemoryFileManager :=
  match check_path path with
  | .error e => (.error e, s)
  | .ok () =>
    if path = MPath.root then
      -- removing everything: reset both maps
      (.ok (),
       { s with
         directories := [(MPath.root, [])]
         files := [(MPath.root, MemoryFile.new_directory MPath.root)] })
    else
      match removeDirLoop s.directories.length s.directories s.files [path] with
      | .error e => (.error e, s)
      | .ok (dirs', files') =>
        (.ok (), { s with directories := dirs', files := files' })

/-! ## Buffer write (`<MemoryFile as Write>::write`, `src/memory.rs` 336–377) -/

/-- The `FileBacking::Buffer` branch of `write`, as a pure function of the
buffer contents, the cursor, and the input slice; returns the new buffer, the
new cursor, and the returned byte count. -/
def writeCore (buffer : List Nat) (position : Nat) (buf : List Nat) :
    List Nat × Nat × Nat :=
  let buffer_length := buffer.length
  if position > buffer_length then
    -- writing beyond the end of the file: `resize(position, 0)` then append
    let buffer1 := buffer ++ List.replicate (position - buffer_length) 0
    let buffer2 := buffer1 ++ buf
    (buffer2, buffer2.length, buf.length)
  else if position = buffer_length then
    -- writing at the end of the file
    let buffer2 := buffer ++ buf
    (buffer2, buffer2.length, buf.length)
  else
    -- writing inside of the file
    let bytes_from_end := buffer_length - position
    if bytes_from_end > 0 then
      let bytes_to_write := min bytes_from_end buf.length
      let write_end := bytes_to_write + position
      let buffer2 := buffer.take position ++ buf.take bytes_to_write ++ buffer.drop write_end
      (buffer2, write_end, bytes_to_write)
    else
      (buffer ++ buf, position + buf.length, buf.length)

/-- `<MemoryFile as Write>::write` on a handle and store. -/
def memWrite (f : MemoryFile) (buf : List Nat) (st : Store) :
    Except ErrK Nat × Store :=
  match f.backing with
  | .directory => (.error .unsupported, st)
  | .buffer pr br =>
    let r := writeCore (getBuf st br) (getPos st pr) buf
    (.ok r.2.2, setPos (setBuf st br r.1) pr r.2.1)

/-! ## Seek (`<MemoryFile as Seek>::seek`, `src/memory.rs` 384–419) -/

/-- `std::io::SeekFrom`; the signed 64-bit offsets are carried as `Int`. -/
inductive SeekFrom where
  | start (offset : Nat)
  | fromEnd (from_end : Int)
  | current (offset : Int)
deriving DecidableEq

/-- `i64::MIN`. -/
def i64Min : Int := -(2 ^ 63)

/-- The `new_position` computation of `seek`. The source computes
`current_length - ((-from_end) as u64)` (and the analogue for `Current`) as
an unchecked `u64` subtraction, which underflows when the negated offset
exceeds the minuend; `none` stands for that underflow (a panic in debug
builds). Overflow of the unsigned additions is not modelled: positions are
unbounded here. -/
def seekNewPosition (pos : SeekFrom) (position : Nat) (current_length : Nat) :
    Option Nat :=
  match pos with
  | .start offset => some offset
  | .fromEnd from_end =>
    if from_end > 0 then some (current_length + from_end.toNat)
    else if from_end = i64Min then some 0
    else if (-from_end).toNat ≤ current_length then
      some (current_length - (-from_end).toNat)
    else none
  | .current offset =>
    if offset > 0 then some (position + offset.toNat)
    else if offset = i64Min then some 0
    else if (-offset).toNat ≤ position then
      some (position - (-offset).toNat)
    else none

/-- `<MemoryFile as Seek>::seek` on a handle and store (the
`try_into::<usize>` cast is the identity on a 64-bit host). -/
def memSeek (f : MemoryFile) (pos : SeekFrom) (st : Store) :
    Except ErrK Nat × Store :=
  match f.backing with
  | .directory => (.error .unsupported, st)
  | .buffer pr br =>
    match seekNewPosition pos (getPos st pr) (getBuf st br).length with
    | none => (.error .panicked, st)
    | some new_position => (.ok new_position, setPos st pr new_position)

/-! ## Durability batch accounting (`src/fsync.rs`)

`FSyncNotify.remaining` is a counter protected by a mutex; every update to
it happens inside that mutex, so a system history projects to a sequence of
atomic counter events: an enqueue (`queue_fsync_all` / `queue_fsync_data`,
lines 186–188 and 201–204, incrementing) or a worker acknowledgement
(`fsync_thread`, lines 139–141, decrementing). A trace is valid when every
acknowledgement acknowledges a previously enqueued command, i.e. no prefix
has more acks than enqueues. -/

inductive FsEvent where
  | enqueue (all : Bool)
  | ack
deriving DecidableEq

def countEnq (t : List FsEvent) : Nat :=
  t.countP fun e => match e with | .enqueue _ => true | .ack => false

def countAck (t : List FsEvent) : Nat :=
  t.countP fun e => match e with | .enqueue _ => false | .ack => true

/-- One mutex-protected update of `FSyncNotify.remaining`. -/
def applyEvent (remaining : Nat) : FsEvent → Nat
  | .enqueue _ => remaining + 1  -- `*remaining_syncs += 1`
  | .ack => remaining - 1        -- `*remaining_syncs -= 1`

/-- The value of `remaining` after a batch history starting from a fresh
batch (`remaining: Mutex::new(0)`). -/
def runTrace (t : List FsEvent) : Nat := t.foldl applyEvent 0

/-- Trace validity: in every prefix, acknowledgements never outnumber
enqueues (a worker only acknowledges a command previously sent). -/
def validTraceB (t : List FsEvent) : Bool :=
  (List.range (t.length + 1)).all fun i => countAck (t.take i) ≤ countEnq (t.take i)

/-- The exit condition of `FSyncBatch::wait_all` (lines 217–225): the wait
loop exits exactly when `remaining` is zero. -/
def waitAllReturns (remaining : Nat) : Prop := remaining = 0

/-! ## The map-consistency invariant of the in-memory backing -/

/-- How many child sets of the directory map contain `p`. -/
def childSetCount (dirs : List (MPath × List MPath)) (p : MPath) : Nat :=
  (dirs.map fun e => e.2.countP fun q => q = p).sum

/-- The spec invariant: directory-map keys are directory-flavoured file-map
entries; directory-flavoured file-map entries are directory-map keys; every
non-root file-map entry appears in exactly one child set. -/
def memInvB (s : MemoryFileManager) : Bool :=
  (s.directories.all fun e =>
    match lookupA s.files e.1 with
    | some f => f.backing.isDirectory
    | none => false) &&
  (s.files.all fun e =>
    match e.2.backing with
    | .directory => (lookupA s.directories e.1).isSome
    | .buffer _ _ => true) &&
  (s.files.all fun e => e.1 = MPath.root || childSetCount s.directories e.1 = 1)

/-- The three write regimes exactly as the specification words them, for
cursor `p` against length `L`: `p > L` zero-fills to `p` and appends all of
the input; `p = L` appends all of the input; `p < L` overwrites
`min (L - p, input length)` bytes in place, advancing the cursor by that
count and returning it. Stated from the spec to be compared with
`writeCore`, the embedding of the source. -/
def writeRegimesSpec (buffer : List Nat) (p : Nat) (input : List Nat) :
    List Nat × Nat × Nat :=
  let L := buffer.length
  if p > L then
    ((buffer ++ List.replicate (p - L) 0) ++ input, p + input.length, input.length)
  else if p = L then
    (buffer ++ input, p + input.length, input.length)
  else
    let k := min (L - p) input.length
    (buffer.take p ++ input.take k ++ buffer.drop (p + k), p + k, k)

/-! ## Concrete scenario states -/

/-- A freshly constructed in-memory manager. -/
def mgr0 : MemoryFileManager := MemoryFileManager.default none

def pathA : MPath := ⟨true, ["a"]⟩

def pathAB : MPath := ⟨true, ["a", "b"]⟩

def pathABC : MPath := ⟨true, ["a", "b", "c"]⟩

/-- The state after `create_dir_all("/a/b")` on a fresh manager. -/
def mgrA : MemoryFileManager := (mgr0.create_dir_all pathAB).2

/-- The state after `create_dir_all("/a/b/c")` on a fresh manager. -/
def mgrB : MemoryFileManager := (mgr0.create_dir_all pathABC).2

/-- `mgrB` after `remove_dir_all("/a/b")`. -/
def mgrB2 : MemoryFileManager := (mgrB.remove_dir_all pathAB).2

/-- A store holding one file's cells: cursor 0, empty buffer. -/
def stClone : Store := ⟨[0], [[]]⟩

/-- A buffer-backed handle on the cells of `stClone`. -/
def fClone : MemoryFile := ⟨⟨true, ["x"]⟩, .buffer 0 0⟩

/-- A manager holding one buffer-backed file `/f` linked under the root. -/
def mgrF : MemoryFileManager :=
  { directories := [(MPath.root, [⟨true, ["f"]⟩])]
    files := [(MPath.root, MemoryFile.new_directory MPath.root),
              (⟨true, ["f"]⟩, ⟨⟨true, ["f"]⟩, .buffer 0 0⟩)]
    store := ⟨[0], [[]]⟩
    fsyncs := ThreadState.uninitialized 4 }

/-! ## Theorems -/

theorem MPath.parent_components_lt {p q : MPath} (h : p.parent = some q) :
    q.components.length < p.components.length := by
  unfold MPath.parent at h
  cases hc : p.components with
  | nil => simp [hc] at h
  | cons a l =>
    simp only [hc] at h
    cases h
    simp [hc, List.length_dropLast]

theorem MPath.parent_ne {p q : MPath} (h : p.parent = some q) : q ≠ p := by
  intro he
  have := MPath.parent_components_lt h
  rw [he] at this
  exact lt_irrefl _ this

theorem lookupA_insertA_self [DecidableEq α] (l : List (α × β)) (k : α) (v : β) :
    lookupA (insertA l k v) k = some v := by
  induction l with
  | nil => simp [insertA, lookupA]
  | cons hd tl ih =>
    obtain ⟨k', w⟩ := hd
    by_cases h : k' = k <;> simp [insertA, lookupA, h, ih]

theorem lookupA_insertA_ne [DecidableEq α] (l : List (α × β)) (k q : α) (v : β)
    (h : q ≠ k) : lookupA (insertA l k v) q = lookupA l q := by
  have h' : k ≠ q := fun he => h he.symm
  induction l with
  | nil => simp [insertA, lookupA, h']
  | cons hd tl ih =>
    obtain ⟨k', w⟩ := hd
    by_cases hk : k' = k
    · subst hk
      simp [insertA, lookupA, h']
    · simp only [insertA, if_neg hk, lookupA]
      by_cases hq : k' = q
      · simp [hq]
      · simp [hq, ih]

theorem lookupA_eq_none_of_not_mem [DecidableEq α] {l : List (α × β)} {k : α}
    (h : k ∉ l.map Prod.fst) : lookupA l k = none := by
  induction l with
  | nil => simp [lookupA]
  | cons hd tl ih =>
    obtain ⟨k', w⟩ := hd
    simp only [List.map_cons, List.mem_cons, not_or] at h
    simp only [lookupA, if_neg (fun he : k' = k => h.1 he.symm)]
    exact ih h.2

theorem lookupA_removeEntry_ne [DecidableEq α] {l l' : List (α × β)} {k q : α} {v : β}
    (h : removeEntry l k = some (v, l')) (hq : q ≠ k) :
    lookupA l' q = lookupA l q := by
  have hq' : k ≠ q := fun he => hq he.symm
  induction l generalizing l' with
  | nil => simp [removeEntry] at h
  | cons hd tl ih =>
    obtain ⟨k', w⟩ := hd
    by_cases hk : k' = k
    · subst hk
      simp [removeEntry] at h
      obtain ⟨h1, h2⟩ := h
      subst h2
      simp [lookupA, hq']
    · simp only [removeEntry, if_neg hk, Option.map_eq_some'] at h
      obtain ⟨⟨v0, l0⟩, hrec, heq⟩ := h
      cases heq
      simp only [lookupA]
      by_cases hkq : k' = q
      · simp [hkq]
      · simp [hkq, ih hrec]

theorem lookupA_removeEntry_self [DecidableEq α] {l l' : List (α × β)} {k : α} {v : β}
    (hnd : (l.map Prod.fst).Nodup) (h : removeEntry l k = some (v, l')) :
    lookupA l' k = none := by
  induction l generalizing l' with
  | nil => simp [removeEntry] at h
  | cons hd tl ih =>
    obtain ⟨k', w⟩ := hd
    simp only [List.map_cons, List.nodup_cons] at hnd
    by_cases hk : k' = k
    · subst hk
      simp [removeEntry] at h
      obtain ⟨h1, h2⟩ := h
      subst h2
      exact lookupA_eq_none_of_not_mem hnd.1
    · simp only [removeEntry, if_neg hk, Option.map_eq_some'] at h
      obtain ⟨⟨v0, l0⟩, hrec, heq⟩ := h
      cases heq
      simp only [lookupA, if_neg hk]
      exact ih hnd.2 hrec

theorem removeEntry_length [DecidableEq α] {l l' : List (α × β)} {k : α} {v : β}
    (h : removeEntry l k = some (v, l')) : l'.length + 1 = l.length := by
  induction l generalizing l' with
  | nil => simp [removeEntry] at h
  | cons hd tl ih =>
    obtain ⟨k', w⟩ := hd
    by_cases hk : k' = k
    · simp [removeEntry, hk] at h
      obtain ⟨h1, h2⟩ := h
      subst h2
      simp
    · simp only [removeEntry, if_neg hk, Option.map_eq_some'] at h
      obtain ⟨⟨v0, l0⟩, hrec, heq⟩ := h
      cases heq
      simpa using ih hrec


/-- C2 (counterexample): the claim says the only transitions ever taken are
Uninitialised→Running (first batch) and Running→Shutdown (shutdown). But
`shutdown()` replaces the state with `Shutdown` unconditionally
(`std::mem::replace`), so calling it on a manager that never issued a batch
takes the transition Uninitialised→Shutdown, which the claim excludes. -/
theorem shutdown_transitions_from_uninitialized :
    FSyncManager.shutdownStep (ThreadState.uninitialized 4) = ThreadState.shutdown ∧
    ThreadState.uninitialized 4 ≠ ThreadState.running := by
  decide

/-- C2 (amended): the durability manager's state is one of the three
`ThreadState` values; the first `new_fsync_batch` call takes
Uninitialised→Running and later calls keep Running; `shutdown()` sends every
state (Uninitialised or Running alike) to Shutdown; after Shutdown,
`new_fsync_batch` always fails with the shutdown error and the state stays
Shutdown. -/
theorem fsync_state_machine (s : ThreadState) (n : Nat) :
    FSyncManager.shutdownStep s = ThreadState.shutdown ∧
    FSyncManager.new_batch (ThreadState.uninitialized n) = (.ok (), .running) ∧
    FSyncManager.new_batch ThreadState.running = (.ok (), .running) ∧
    FSyncManager.new_batch ThreadState.shutdown = (.error .shutdownErr, .shutdown) :=
  ⟨rfl, rfl, rfl, rfl⟩

/-- C3 (code bug): on a fresh manager, `create_dir_all("/a/b")` returns
success, yet only the missing strict ancestor `/a` is created — the
requested path `/a/b` is never inserted (`exists("/a/b")` stays false), and
`/a` is linked into no parent's child set. This contradicts the claim, the
spec's S2 scenario, and the repository's own `create_dir_all` test. -/
theorem create_dir_all_misses_requested_path :
    (mgr0.create_dir_all pathAB).1 = .ok () ∧
    mgrA.existsPath pathA = true ∧
    mgrA.existsPath pathAB = false ∧
    childSetCount mgrA.directories pathA = 0 := by
  decide

/-- C4 (counterexample): `try_clone` is `Ok(self.clone())`, and the derived
`Clone` clones both `Arc`s, so the duplicate holds the same cursor cell as
the original. Seeking the duplicate of `fClone` to 5 changes the original
handle's cursor (cell 0) from 0 to 5, refuting the claimed independent
cursor. -/
theorem try_clone_shares_cursor :
    (memSeek (MemoryFile.try_clone fClone) (SeekFrom.start 5) stClone).1 = .ok 5 ∧
    getPos stClone 0 = 0 ∧
    getPos (memSeek (MemoryFile.try_clone fClone) (SeekFrom.start 5) stClone).2 0 = 5 := by
  decide

/-- C5 (code bug): the fresh manager satisfies the map-consistency
invariant, but a successful `create_dir_all("/a/b")` breaks it: the created
`/a` is a directory-flavoured file-map entry and a directory-map key, yet
appears in no parent's child set, violating the exactly-one-child-set
clause. -/
theorem create_dir_all_breaks_map_invariant :
    memInvB mgr0 = true ∧
    (mgr0.create_dir_all pathAB).1 = .ok () ∧
    memInvB mgrA = false := by
  decide

/-- C6 (code bug): with `/a` a directory of the backing (state `mgrA`),
`remove_dir_all("/a")` returns success and removes the directory-map key,
but never removes `/a`'s own entry from the file map: `exists("/a")` is
still true afterwards, an orphan directory-flavoured file entry, where the
claim requires `p` to be absent from the file map. -/
theorem remove_dir_all_orphans_directory_entry :
    (mgrA.remove_dir_all pathA).1 = .ok () ∧
    (mgrA.remove_dir_all pathA).2.existsPath pathA = true ∧
    lookupA (mgrA.remove_dir_all pathA).2.directories pathA = none := by
  decide

/-- C8 (counterexample): `list` never calls `check_path`; on the relative
path `a` it reports a not-found error (the path is not a directory-map
key), not the unsupported-kind error the claim states for every failable
operation. -/
theorem list_relative_path_not_unsupported :
    (mgr0.list ⟨false, ["a"]⟩).1 = .error .notFound ∧
    ErrK.notFound ≠ ErrK.unsupported := by
  decide

/-- C9 (counterexample): a reachable state on which `remove_file` panics
instead of succeeding. After `create_dir_all("/a/b/c")` (which creates
`/a/b` and `/a`) and `remove_dir_all("/a/b")` (which removes `/a` but
leaves `/a/b` in the file map), the surviving `/a/b` exists and is not the
root, yet `remove_file("/a/b")` hits
`.expect("file exists without directory")` because its parent `/a` is no
longer a directory-map key — refuting "succeeds for every path that exists
and is not the root". -/
theorem remove_file_panics_on_reachable_state :
    (mgr0.create_dir_all pathABC).1 = .ok () ∧
    (mgrB.remove_dir_all pathAB).1 = .ok () ∧
    mgrB2.existsPath pathAB = true ∧
    pathAB ≠ MPath.root ∧
    (mgrB2.remove_file pathAB).1 = .error .panicked := by
  decide

theorem getD_set_ne {γ : Type} (l : List γ) (i j : Nat) (v d : γ) (h : i ≠ j) :
    (l.set i v).getD j d = l.getD j d := by
  induction l generalizing i j with
  | nil => simp
  | cons hd tl ih =>
    cases i with
    | zero =>
      cases j with
      | zero => exact absurd rfl h
      | succ j' => simp
    | succ i' =>
      cases j with
      | zero => simp
      | succ j' => simpa using ih i' j' (by omega)

theorem getD_append_lt {γ : Type} (l l2 : List γ) (i : Nat) (d : γ)
    (h : i < l.length) : (l ++ l2).getD i d = l.getD i d := by
  induction l generalizing i with
  | nil => simp at h
  | cons hd tl ih =>
    cases i with
    | zero => simp
    | succ i' => simpa using ih i' (by simpa using h)

theorem getD_append_self {γ : Type} (l : List γ) (x : γ) (d : γ) :
    (l ++ [x]).getD l.length d = x := by
  induction l with
  | nil => simp
  | cons hd tl ih => simp [ih]

/-- C4 (amended): `try_clone` returns a handle that shares both the bytes
and the cursor cell with the original (it is `self.clone()` on two `Arc`s),
so cursor movements are visible through both. The independent-cursor
duplicate is instead produced by `detach`, which `open` applies when
returning a file: the detached handle shares the buffer cell, holds a fresh
cursor cell distinct from the original's, starts at cursor 0, and moving
its cursor leaves the original handle's cursor unchanged. -/
theorem detach_gives_fresh_cursor (st : Store) (f : MemoryFile) (pr br : Nat)
    (hb : f.backing = .buffer pr br) (hr : pr < st.positions.length) :
    MemoryFile.try_clone f = f ∧
    (f.detach st).1.backing = .buffer st.positions.length br ∧
    st.positions.length ≠ pr ∧
    getPos (f.detach st).2 st.positions.length = 0 ∧
    getBuf (f.detach st).2 br = getBuf st br ∧
    (∀ v, getPos (setPos (f.detach st).2 st.positions.length v) pr = getPos st pr) := by
  have hne : st.positions.length ≠ pr := by omega
  refine ⟨rfl, ?_, hne, ?_, ?_, ?_⟩
  · simp [MemoryFile.detach, hb]
  · simp [MemoryFile.detach, hb, getPos, getD_append_self]
  · simp [MemoryFile.detach, hb, getBuf]
  · intro v
    simp only [MemoryFile.detach, hb, getPos, setPos]
    rw [getD_set_ne _ _ _ _ _ hne, getD_append_lt _ _ _ _ hr]

/-- C4 (witness): the amended theorem evaluated on a concrete store holding
one file whose cursor cell is index 0. -/
theorem detach_gives_fresh_cursor_witness :
    MemoryFile.try_clone fClone = fClone ∧
    (fClone.detach stClone).1.backing = .buffer 1 0 ∧
    getPos (fClone.detach stClone).2 1 = 0 ∧
    getPos (setPos (fClone.detach stClone).2 1 9) 0 = getPos stClone 0 := by
  have h := detach_gives_fresh_cursor stClone fClone 0 0 rfl (by decide)
  exact ⟨h.1, h.2.1, h.2.2.2.1, h.2.2.2.2.2 9⟩

/-- C8 (amended): every relative path is rejected with an unsupported-kind
error, the manager left unchanged, by `open`, `create_dir_all`,
`remove_dir_all`, `remove_file` and `rename` (on either argument). `list`,
however, never checks the path: on any state whose directory-map keys are
all absolute (true of every reachable state), a relative path is simply not
found, so `list` fails with a not-found error, also leaving the manager
unchanged. -/
theorem relative_paths_rejected (s : MemoryFileManager) (p q : MPath)
    (o : OpenOptions) (h : p.absolute = false) :
    s.openFile p o = (.error .unsupported, s) ∧
    s.create_dir_all p = (.error .unsupported, s) ∧
    s.remove_dir_all p = (.error .unsupported, s) ∧
    s.remove_file p = (.error .unsupported, s) ∧
    s.rename p q = (.error .unsupported, s) ∧
    (q.absolute = true → s.rename q p = (.error .unsupported, s)) ∧
    ((s.directories.all fun e => e.1.absolute) = true →
      s.list p = (.error .notFound, s)) := by
  refine ⟨?_, ?_, ?_, ?_, ?_, ?_, ?_⟩
  · simp [MemoryFileManager.openFile, check_path, h]
  · simp [MemoryFileManager.create_dir_all, check_path, h]
  · simp [MemoryFileManager.remove_dir_all, check_path, h]
  · simp [MemoryFileManager.remove_file, check_path, h]
  · simp [MemoryFileManager.rename, check_path, h]
  · intro hq
    simp [MemoryFileManager.rename, check_path, h, hq]
  · intro hall
    have hnm : p ∉ s.directories.map Prod.fst := by
      intro hm
      obtain ⟨e, he, hfst⟩ := List.mem_map.mp hm
      have := List.all_eq_true.mp hall e he
      rw [hfst] at this
      simp [h] at this
    simp [MemoryFileManager.list, lookupA_eq_none_of_not_mem hnm]

/-- C8 (witness): the amended theorem evaluated on a fresh manager and the
relative path `a`. -/
theorem relative_paths_rejected_witness :
    mgr0.openFile ⟨false, ["a"]⟩ ⟨true, true, true⟩ = (.error .unsupported, mgr0) ∧
    mgr0.remove_file ⟨false, ["a"]⟩ = (.error .unsupported, mgr0) ∧
    mgr0.rename MPath.root ⟨false, ["a"]⟩ = (.error .unsupported, mgr0) ∧
    mgr0.list ⟨false, ["a"]⟩ = (.error .notFound, mgr0) := by
  have h := relative_paths_rejected mgr0 ⟨false, ["a"]⟩ MPath.root ⟨true, true, true⟩ rfl
  exact ⟨h.1, h.2.2.2.1, h.2.2.2.2.2.1 rfl, h.2.2.2.2.2.2 (by decide)⟩

/-- C9 (amended): `remove_file(p)` succeeds for every existing non-root `p`
whose parent is a key of the directory map — even when `p` names a
directory. It removes `p` from the file map and from the parent's child
set, while leaving `p`'s own directory-map entry and every other file-map
entry (in particular all of `p`'s descendants) in place. When the parent is
not a directory-map key, the source instead panics on
`.expect("file exists without directory")`. -/
theorem remove_file_removes_single_entry (s : MemoryFileManager)
    (p parent : MPath) (f : MemoryFile) (files' : List (MPath × MemoryFile))
    (parentSet : List MPath)
    (habs : p.absolute = true)
    (hpar : p.parent = some parent)
    (hrm : removeEntry s.files p = some (f, files'))
    (hdir : lookupA s.directories parent = some parentSet)
    (hnd : (s.files.map Prod.fst).Nodup) :
    (s.remove_file p).1 = .ok () ∧
    lookupA (s.remove_file p).2.files p = none ∧
    (∀ q, q ≠ p → lookupA (s.remove_file p).2.files q = lookupA s.files q) ∧
    lookupA (s.remove_file p).2.directories p = lookupA s.directories p ∧
    lookupA (s.remove_file p).2.directories parent = some (setRemove parentSet p) := by
  have hpne : parent ≠ p := MPath.parent_ne hpar
  have hpne' : p ≠ parent := fun he => hpne he.symm
  have hres : s.remove_file p =
      (.ok (),
       { s with
         files := files'
         directories := insertA s.directories parent (setRemove parentSet p) }) := by
    simp [MemoryFileManager.remove_file, check_path, habs, hpar, hrm, hdir]
  refine ⟨?_, ?_, ?_, ?_, ?_⟩
  · rw [hres]
  · rw [hres]
    exact lookupA_removeEntry_self hnd hrm
  · intro q hq
    rw [hres]
    exact lookupA_removeEntry_ne hrm hq
  · rw [hres]
    exact lookupA_insertA_ne _ _ _ _ hpne'
  · rw [hres]
    exact lookupA_insertA_self _ _ _

/-- C9 (witness): the amended theorem evaluated on `mgrF`, a manager holding
one file `/f` linked under the root. -/
theorem remove_file_removes_single_entry_witness :
    (mgrF.remove_file ⟨true, ["f"]⟩).1 = .ok () ∧
    lookupA (mgrF.remove_file ⟨true, ["f"]⟩).2.files ⟨true, ["f"]⟩ = none ∧
    lookupA (mgrF.remove_file ⟨true, ["f"]⟩).2.files MPath.root =
      lookupA mgrF.files MPath.root ∧
    lookupA (mgrF.remove_file ⟨true, ["f"]⟩).2.directories ⟨true, ["f"]⟩ =
      lookupA mgrF.directories ⟨true, ["f"]⟩ ∧
    lookupA (mgrF.remove_file ⟨true, ["f"]⟩).2.directories MPath.root =
      some (setRemove [⟨true, ["f"]⟩] ⟨true, ["f"]⟩) := by
  have h := remove_file_removes_single_entry mgrF ⟨true, ["f"]⟩ MPath.root
    ⟨⟨true, ["f"]⟩, .buffer 0 0⟩
    [(MPath.root, MemoryFile.new_directory MPath.root)]
    [⟨true, ["f"]⟩] rfl rfl (by decide) (by decide) (by decide)
  exact ⟨h.1, h.2.1, h.2.2.1 MPath.root (by decide), h.2.2.2.1, h.2.2.2.2⟩

theorem foldl_applyEvent_eq (t : List FsEvent) :
    ∀ n : Nat,
      (∀ i, i ≤ t.length → countAck (t.take i) ≤ n + countEnq (t.take i)) →
      t.foldl applyEvent n = n + countEnq t - countAck t := by
  induction t with
  | nil =>
    intro n h
    simp [countEnq, countAck]
  | cons e t' ih =>
    intro n h
    have h0 := h 1 (by simp)
    cases e with
    | enqueue b =>
      have hcond : ∀ i, i ≤ t'.length →
          countAck (t'.take i) ≤ (n + 1) + countEnq (t'.take i) := by
        intro i hi
        have := h (i + 1) (by simp; omega)
        simp [List.take_succ_cons, countAck, countEnq, List.countP_cons] at this ⊢
        omega
      have hrec := ih (n + 1) hcond
      simp only [List.foldl_cons, applyEvent] at hrec ⊢
      rw [hrec]
      simp [countEnq, countAck, List.countP_cons]
      omega
    | ack =>
      have hn1 : 1 ≤ n := by
        simp [List.take_succ_cons, countAck, countEnq, List.countP_cons] at h0
        omega
      have hcond : ∀ i, i ≤ t'.length →
          countAck (t'.take i) ≤ (n - 1) + countEnq (t'.take i) := by
        intro i hi
        have := h (i + 1) (by simp; omega)
        simp [List.take_succ_cons, countAck, countEnq, List.countP_cons] at this ⊢
        omega
      have hcl := hcond t'.length (le_refl _)
      rw [List.take_length] at hcl
      have hrec := ih (n - 1) hcond
      simp only [List.foldl_cons, applyEvent] at hrec ⊢
      rw [hrec]
      simp [countEnq, countAck, List.countP_cons]
      omega

theorem validTraceB_le (t : List FsEvent) (hv : validTraceB t = true) :
    ∀ i, i ≤ t.length → countAck (t.take i) ≤ countEnq (t.take i) := by
  intro i hi
  have := List.all_eq_true.mp hv i (List.mem_range.mpr (by omega))
  simpa using this

/-- C1: with every update of the batch counter `outstanding`
(`FSyncNotify.remaining`) happening under the notification mutex, a batch
history is a trace of atomic enqueue/acknowledge events. For every valid
trace with `k` enqueues: if `wait_all`'s exit condition (`outstanding = 0`)
holds, then exactly `k` acknowledgements have happened, so `wait_all`
returns only after all `k` commands were acknowledged; each enqueue
increments the counter by exactly 1; each acknowledgement of a previously
enqueued command finds the counter at least 1 and decrements it by exactly
1. -/
theorem fsync_batch_accounting (t : List FsEvent) (k : Nat) (b : Bool)
    (hv : validTraceB t = true) (hk : countEnq t = k) :
    (waitAllReturns (runTrace t) → countAck t = k) ∧
    runTrace (t ++ [FsEvent.enqueue b]) = runTrace t + 1 ∧
    (validTraceB (t ++ [FsEvent.ack]) = true →
      1 ≤ runTrace t ∧ runTrace (t ++ [FsEvent.ack]) = runTrace t - 1) := by
  have hcond := validTraceB_le t hv
  have hrun : runTrace t = countEnq t - countAck t := by
    have := foldl_applyEvent_eq t 0 (by intro i hi; simpa using hcond i hi)
    simpa [runTrace] using this
  have hle : countAck t ≤ countEnq t := by
    have := hcond t.length (le_refl _)
    simpa [List.take_length] using this
  refine ⟨?_, ?_, ?_⟩
  · intro h0
    have h0' : runTrace t = 0 := h0
    omega
  · simp [runTrace, List.foldl_append, applyEvent]
  · intro hv2
    have hle2 : countAck t + 1 ≤ countEnq t := by
      have hpre := validTraceB_le _ hv2 (t.length + 1) (by simp)
      have hlen1 : t.length + 1 = (t ++ [FsEvent.ack]).length := by simp
      rw [hlen1, List.take_length] at hpre
      simp [countAck, countEnq, List.countP_append, List.countP_cons] at hpre ⊢
      omega
    refine ⟨by omega, ?_⟩
    simp [runTrace, List.foldl_append, applyEvent]

/-- C1 (witness): the accounting theorem evaluated on the two-event trace
enqueue-then-acknowledge. -/
theorem fsync_batch_accounting_witness :
    countAck [FsEvent.enqueue true, FsEvent.ack] = 1 ∧
    runTrace ([FsEvent.enqueue true, FsEvent.ack] ++ [FsEvent.enqueue false]) =
      runTrace [FsEvent.enqueue true, FsEvent.ack] + 1 := by
  have h := fsync_batch_accounting [FsEvent.enqueue true, FsEvent.ack] 1 false
    (by decide) (by decide)
  exact ⟨h.1 (by decide : runTrace [FsEvent.enqueue true, FsEvent.ack] = 0), h.2.1⟩

/-- C7: the buffer branch of `<MemoryFile as Write>::write` equals, for
every buffer, cursor and input, the spec's three-regime description:
`p > L` zero-fills to `p`, appends everything and returns the input length;
`p = L` appends everything; `p < L` overwrites exactly
`min (L - p, input length)` bytes in place (never growing the buffer in
that call), advances the cursor by that count and returns it. -/
theorem write_follows_regimes (buffer : List Nat) (position : Nat) (buf : List Nat) :
    writeCore buffer position buf = writeRegimesSpec buffer position buf := by
  simp only [writeCore, writeRegimesSpec]
  split_ifs with h1 h2 h3
  · have hlen : ((buffer ++ List.replicate (position - buffer.length) 0) ++ buf).length =
        position + buf.length := by
      simp only [List.length_append, List.length_replicate]
      omega
    rw [hlen]
  · have hlen : (buffer ++ buf).length = position + buf.length := by
      simp [h2]
    rw [hlen]
  · rw [Nat.add_comm (min (buffer.length - position) buf.length) position]
  · exact absurd (by omega : buffer.length - position > 0) h3

/-- C10: in `seek`, among negative relative offsets only the exact value
`i64::MIN` is clamped to position zero (for both `Current` and `End`); for
every other negative offset `o`, the computed position is defined (the
unchecked `u64` subtraction does not underflow) exactly when `-o` is at
most the current cursor (for `Current`) resp. the file length (for `End`),
in which case it is exactly that difference — no clamping and no error
return; outside the precondition the subtraction underflows (`none`). -/
theorem seek_negative_relative_offsets (o : Int) (c L : Nat)
    (hlo : i64Min ≤ o) (hneg : o < 0) :
    (o = i64Min →
      seekNewPosition (SeekFrom.current o) c L = some 0 ∧
      seekNewPosition (SeekFrom.fromEnd o) c L = some 0) ∧
    (o ≠ i64Min →
      (((seekNewPosition (SeekFrom.current o) c L).isSome ↔ (-o).toNat ≤ c) ∧
       ((-o).toNat ≤ c →
         seekNewPosition (SeekFrom.current o) c L = some (c - (-o).toNat)) ∧
       ((seekNewPosition (SeekFrom.fromEnd o) c L).isSome ↔ (-o).toNat ≤ L) ∧
       ((-o).toNat ≤ L →
         seekNewPosition (SeekFrom.fromEnd o) c L = some (L - (-o).toNat)))) := by
  have hnp : ¬ o > 0 := by omega
  have hmnp : ¬ i64Min > 0 := by decide
  constructor
  · intro hm
    constructor <;> simp [seekNewPosition, hnp, hm, hmnp]
  · intro hm
    refine ⟨?_, ?_, ?_, ?_⟩
    · by_cases h : (-o).toNat ≤ c <;> simp [seekNewPosition, hnp, hm, h]
    · intro h
      simp [seekNewPosition, hnp, hm, h]
    · by_cases h : (-o).toNat ≤ L <;> simp [seekNewPosition, hnp, hm, h]
    · intro h
      simp [seekNewPosition, hnp, hm, h]

/-- C10 (witness): the seek theorem evaluated at offset `-3` with cursor 5
and length 2: `Current` lands exactly at `5 - 3 = 2`, while `End`
underflows because `3 > 2`. -/
theorem seek_negative_relative_offsets_witness :
    seekNewPosition (SeekFrom.current (-3)) 5 2 = some 2 ∧
    (seekNewPosition (SeekFrom.fromEnd (-3)) 5 2).isSome = false := by
  have h := seek_negative_relative_offsets (-3) 5 2 (by decide) (by decide)
  have h2 := h.2 (by decide)
  exact ⟨h2.2.1 (by decide), by decide⟩

end FileManagerModel
